import Mathlib

/-!
Verification development for the Smart_Extractor extraction pipeline
(`full_extract.py`).  The Python functions relevant to the frozen claims are
shallowly embedded below: strings are Lean `String`s (manipulated through
`List Char`), machine integers are `Int`/`Nat`, fallible code returns
`Except String _` (an `Except.error` models a raised Python exception), and
the regular expressions of the source are encoded as explicit syntax trees
interpreted by a small fuel-based backtracking matcher whose priority order
mirrors the Python `re` engine (leftmost match, greedy quantifiers,
alternatives tried left to right, non-overlapping `findall`).

Note on the source text: the repository file is mojibake-damaged — the rupee
sign intended by the author appears in the file as the literal three-character
sequence `‚Çπ` (U+201A, U+00C7, U+03C0), and similarly `©` appears as `¬©`
(U+00AC U+00A9) and `›` as `‚Ä∫` (U+201A U+00C4 U+222B).  The embedding is
faithful to the file as it stands, so those exact character sequences are used
wherever the source uses them.
-/

namespace SmartExtractor

/-! ## Python string primitives -/

/-- Python whitespace for `str.strip` / `\s` (ASCII part; the inputs handled
in this development contain no non-ASCII whitespace). -/
def isPySpace (c : Char) : Bool :=
  c = ' ' || c = '\t' || c = '\n' || c = '\x0d' || c = '\x0b' || c = '\x0c'

/-- Python `\w` (word character).  Python treats any Unicode letter as a word
character; besides ASCII, the only non-ASCII letters occurring in the source
literals are `Ç` (U+00C7) and `π` (U+03C0), which are included explicitly. -/
def isWordChar (c : Char) : Bool :=
  c.isAlphanum || c = '_' || c = 'Ç' || c = 'π'

def isAsciiDigit (c : Char) : Bool := '0' ≤ c && c ≤ '9'

/-- Python `str.lower` restricted to ASCII (no other cased characters occur
in the strings this development evaluates). -/
def lowerChar (c : Char) : Char := c.toLower

def lowerStr (s : List Char) : List Char := s.map lowerChar

/-- Python `str.strip()` on a character list. -/
def pyStripL (s : List Char) : List Char :=
  ((s.dropWhile isPySpace).reverse.dropWhile isPySpace).reverse

/-- Python `str.rstrip()` on a character list. -/
def pyRstripL (s : List Char) : List Char :=
  (s.reverse.dropWhile isPySpace).reverse

def pyStrip (s : String) : String := ⟨pyStripL s.data⟩

/-- Substring containment (`needle in hay` in Python). -/
def strContains : List Char → List Char → Bool
  | _, [] => true
  | [], _ :: _ => false
  | c :: hay, needle => needle.isPrefixOf (c :: hay) || strContains hay needle

/-- Python `str.split()` (split on whitespace runs, dropping empty pieces). -/
def pySplitWS (s : List Char) : List (List Char) :=
  go s []
where
  go : List Char → List Char → List (List Char)
    | [], acc => if acc.isEmpty then [] else [acc.reverse]
    | c :: cs, acc =>
      if isPySpace c then
        (if acc.isEmpty then go cs [] else acc.reverse :: go cs [])
      else go cs (c :: acc)

/-- Python `str.splitlines()` restricted to `\n` terminators (the only line
terminator produced by the code paths modelled here): the final piece is
dropped when the string ends with a newline, and the empty string yields no
lines. -/
def pySplitlines (s : List Char) : List (List Char) :=
  go s []
where
  go : List Char → List Char → List (List Char)
    | [], acc => if acc.isEmpty then [] else [acc.reverse]
    | c :: cs, acc =>
      if c = '\n' then acc.reverse :: go cs [] else go cs (c :: acc)

/-- Python `int(s)` for a decimal string: optional surrounding whitespace,
optional sign, then at least one ASCII digit.  Returns `none` where Python
raises `ValueError`. -/
def pyIntParse (s : List Char) : Option Int :=
  let t := pyStripL s
  match t with
  | '-' :: ds => (digitsVal ds).map (fun n => -(n : Int))
  | '+' :: ds => (digitsVal ds).map (fun n => (n : Int))
  | ds => (digitsVal ds).map (fun n => (n : Int))
where
  digitsVal (ds : List Char) : Option Nat :=
    if ds.isEmpty || !(ds.all isAsciiDigit) then none
    else some (ds.foldl (fun a c => 10 * a + (c.toNat - '0'.toNat)) 0)

/-! ## A small backtracking regex engine

The engine interprets an explicit syntax tree.  `matchL` returns the list of
possible (previous character, remaining suffix) pairs **in the priority order
of the Python `re` engine**: alternatives left to right, quantifiers greedy.
The previous character is threaded so that the anchors `^` (plain and
MULTILINE) and `\b` can be decided locally.  A fuel argument makes every
function structurally recursive (hence kernel-computable); the fuel bounds
the backtracking depth and is always instantiated generously enough for the
patterns and inputs evaluated in this file (every quantified subpattern of
the source's regexes consumes at least one character per iteration). -/

inductive RE where
  | eps : RE
  | cls : (Char → Bool) → RE
  | seq : RE → RE → RE
  | alt : RE → RE → RE
  | rep : RE → Nat → Option Nat → RE
  | bos : RE
  | bolM : RE
  | eosNl : RE
  | wordB : RE
  | look : RE → RE

def decrOpt : Option Nat → Option Nat
  | none => none
  | some n => some (n - 1)

def matchL : Nat → RE → Option Char → List Char → List (Option Char × List Char)
  | 0, _, _, _ => []
  | _ + 1, .eps, prev, s => [(prev, s)]
  | _ + 1, .cls p, _, s =>
    match s with
    | [] => []
    | c :: cs => if p c then [(some c, cs)] else []
  | f + 1, .seq a b, prev, s =>
    (matchL f a prev s).flatMap fun pr => matchL f b pr.1 pr.2
  | f + 1, .alt a b, prev, s => matchL f a prev s ++ matchL f b prev s
  | f + 1, .rep r lo hi, prev, s =>
    match lo with
    | l + 1 =>
      (matchL f r prev s).flatMap fun pr => matchL f (.rep r l (decrOpt hi)) pr.1 pr.2
    | 0 =>
      match hi with
      | some 0 => [(prev, s)]
      | _ =>
        ((matchL f r prev s).flatMap fun pr =>
          if pr.2.length < s.length then matchL f (.rep r 0 (decrOpt hi)) pr.1 pr.2
          else []) ++ [(prev, s)]
  | _ + 1, .bos, prev, s => if prev.isNone then [(prev, s)] else []
  | _ + 1, .bolM, prev, s =>
    if prev.isNone || prev = some '\n' then [(prev, s)] else []
  | _ + 1, .eosNl, prev, s =>
    if s.isEmpty || s = ['\n'] then [(prev, s)] else []
  | _ + 1, .wordB, prev, s =>
    let wp := match prev with | some c => isWordChar c | none => false
    let wn := match s with | c :: _ => isWordChar c | [] => false
    if wp ≠ wn then [(prev, s)] else []
  | f + 1, .look r, prev, s =>
    if (matchL f r prev s).isEmpty then [] else [(prev, s)]

def reSize : RE → Nat
  | .eps => 1
  | .cls _ => 1
  | .seq a b => reSize a + reSize b + 1
  | .alt a b => reSize a + reSize b + 1
  | .rep r _ _ => reSize r + 2
  | .bos | .bolM | .eosNl | .wordB => 1
  | .look r => reSize r + 1

/-- Fuel that bounds the backtracking depth of `matchL` for pattern `re` on
input `s` (all repetition bounds in the source's patterns are ≤ 120). -/
def matchFuel (re : RE) (s : List Char) : Nat :=
  (s.length + 130) * (reSize re + 2)

def firstSome : List α → (α → Option β) → Option β
  | [], _ => none
  | a :: l, f => match f a with
    | some b => some b
    | none => firstSome l f

/-- First match of `re` at exactly the current position (priority order),
returning the context character and suffix after the match. -/
def matchNoCapAt (re : RE) (prev : Option Char) (s : List Char) :
    Option (Option Char × List Char) :=
  (matchL (matchFuel re s) re prev s).head?

/-- Python `re.search(...)` as a Boolean: does `re` match at some position? -/
def searchF : Nat → RE → Option Char → List Char → Bool
  | 0, _, _, _ => false
  | n + 1, re, prev, s =>
    !(matchL (matchFuel re s) re prev s).isEmpty ||
      match s with
      | [] => false
      | c :: cs => searchF n re (some c) cs

def reSearch (re : RE) (s : List Char) : Bool :=
  searchF (s.length + 1) re none s

/-- A pattern with exactly one capturing group, written as the concatenation
`pre ⬝ ( grp ) ⬝ post`; `re.findall` on such a pattern returns the text of
the group for every non-overlapping match. -/
structure CPat where
  pre : RE
  grp : RE
  post : RE

/-- First match of a one-group pattern at the current position, in Python
priority order; returns (group text, context char after match, suffix). -/
def matchCapAt (p : CPat) (prev : Option Char) (s : List Char) :
    Option (List Char × Option Char × List Char) :=
  let fu := matchFuel (.seq p.pre (.seq p.grp p.post)) s
  firstSome (matchL fu p.pre prev s) fun pr1 =>
    firstSome (matchL fu p.grp pr1.1 pr1.2) fun pr2 =>
      firstSome (matchL fu p.post pr2.1 pr2.2) fun pr3 =>
        some (pr1.2.take (pr1.2.length - pr2.2.length), pr3.1, pr3.2)

/-- Python `re.findall` for a one-group pattern (non-overlapping, scanning
left to right); every matched span of the patterns used in this file consumes
at least one character. -/
def findallCapF : Nat → CPat → Option Char → List Char → List (List Char)
  | 0, _, _, _ => []
  | n + 1, p, prev, s =>
    match matchCapAt p prev s with
    | some (cap, p2, s2) =>
      if s2.length < s.length then cap :: findallCapF n p p2 s2
      else
        match s with
        | [] => [cap]
        | c :: cs => cap :: findallCapF n p (some c) cs
    | none =>
      match s with
      | [] => []
      | c :: cs => findallCapF n p (some c) cs

def reFindall (p : CPat) (s : List Char) : List (List Char) :=
  findallCapF (s.length + 1) p none s

/-- Python `re.split` on a group-free pattern: the text between consecutive
non-overlapping matches (empty pieces included, as in `re.split`). -/
def splitMF : Nat → RE → Option Char → List Char → List Char → List (List Char)
  | 0, _, _, acc, s => [acc.reverse ++ s]
  | n + 1, re, prev, acc, s =>
    match matchNoCapAt re prev s with
    | some (p2, s2) =>
      if s2.length < s.length then acc.reverse :: splitMF n re p2 [] s2
      else
        match s with
        | [] => [acc.reverse]
        | c :: cs => splitMF n re (some c) (c :: acc) cs
    | none =>
      match s with
      | [] => [acc.reverse]
      | c :: cs => splitMF n re (some c) (c :: acc) cs

def reSplit (re : RE) (s : List Char) : List (List Char) :=
  splitMF (s.length + 1) re none [] s

/-! ### Notationless constructors for the concrete patterns -/

def chrE (c : Char) : RE := .cls (· = c)

/-- Case-insensitive single character (`re.IGNORECASE`, ASCII case folding). -/
def ichrE (c : Char) : RE := .cls (fun x => lowerChar x = lowerChar c)

def strE (s : String) : RE := s.data.foldr (fun c r => .seq (chrE c) r) .eps

def istrE (s : String) : RE := s.data.foldr (fun c r => .seq (ichrE c) r) .eps

def csetE (s : String) : RE := .cls (fun x => s.data.contains x)

def ncsetE (s : String) : RE := .cls (fun x => !(s.data.contains x))

def digitE : RE := .cls isAsciiDigit

def wsE : RE := .cls isPySpace

/-- `.` without `re.DOTALL`. -/
def dotE : RE := .cls (fun x => x ≠ '\n')

def optE (r : RE) : RE := .rep r 0 (some 1)

def starE (r : RE) : RE := .rep r 0 none

def plusE (r : RE) : RE := .rep r 1 none

def seqL (l : List RE) : RE := l.foldr .seq .eps

def altL : List RE → RE
  | [] => .eps
  | [r] => r
  | r :: rs => .alt r (altL rs)

/-- `[A-Z]` under `re.IGNORECASE` (ASCII letters). -/
def letterE : RE := .cls Char.isAlpha

/-- `.` under `re.DOTALL`. -/
def dotAllE : RE := .cls (fun _ => true)

def digitsCommaE : RE := plusE (csetE "0123456789,")

/-! ## Pattern constants transcribed from `full_extract.py` -/

/-- `block_has_price` pattern (line 181, `re.IGNORECASE`):
`(?:‚Çπ|Rs\.?|INR|\$)\s*[\d,]+(?:\.\d+)?|(?:price|deal|offer)\s*[:\-]?\s*[\d,]+` -/
def priceLikeRE : RE :=
  .alt
    (seqL [altL [istrE "‚Çπ", .seq (istrE "Rs") (optE (chrE '.')), istrE "INR",
                 chrE '$'],
           starE wsE, digitsCommaE, optE (.seq (chrE '.') (plusE digitE))])
    (seqL [altL [istrE "price", istrE "deal", istrE "offer"], starE wsE,
           optE (csetE ":-"), starE wsE, digitsCommaE])

/-- `block_has_price` (lines 178–184). -/
def block_has_price (block : String) : Bool :=
  reSearch priceLikeRE block.data

/-- Product-vocabulary pattern of `looks_like_product_block` (lines 197–200),
searched on the lowercased text. -/
def llpbWordsRE : RE :=
  seqL [.wordB,
        altL [strE "tv", strE "television", strE "inch", strE "cm",
              strE "uhd", strE "fhd", strE "oled", strE "qled", strE "smart",
              strE "buy", strE "price", strE "offer", strE "discount",
              strE "deal", strE "product", strE "model", strE "brand",
              .seq (strE "rating") (optE (chrE 's')),
              .seq (strE "review") (optE (chrE 's'))],
        .wordB]

/-- Product-link pattern of `looks_like_product_block` (line 201):
`https?://[^\s\)]*(?:/dp/|/gp/aw/d/|/gp/product/|/s\?)`. -/
def productLinkRE : RE :=
  seqL [strE "http", optE (chrE 's'), strE "://",
        starE (.cls (fun c => !(isPySpace c || c = ')'))),
        altL [strE "/dp/", strE "/gp/aw/d/", strE "/gp/product/", strE "/s?"]]

/-- Rating pattern of `looks_like_product_block` (line 202):
`out of 5 stars|ratings?\b|reviews?\b`, searched on the lowercased text. -/
def ratingWordsRE : RE :=
  altL [strE "out of 5 stars",
        seqL [strE "rating", optE (chrE 's'), .wordB],
        seqL [strE "review", optE (chrE 's'), .wordB]]

/-- `looks_like_product_block` (lines 186–207). -/
def looks_like_product_block (block : String) (query_keywords : List String) :
    Bool :=
  let text := pyStripL block.data
  if text.length < 120 then false
  else
    let text_lower := lowerStr text
    let has_query_keyword := !query_keywords.isEmpty &&
      query_keywords.any (fun kw => 2 < kw.length && strContains text_lower kw.data)
    let has_product_words := reSearch llpbWordsRE text_lower
    let has_product_link := reSearch productLinkRE text
    let has_rating := reSearch ratingWordsRE text_lower
    let has_price := block_has_price ⟨text⟩
    if has_price then true
    else (has_product_words || has_query_keyword) &&
         (has_product_link || has_rating || decide (220 ≤ text.length))

/-- The eight `noise_line_patterns` of `cleaned_markdown` (lines 213–222),
searched per line with `re.IGNORECASE` (anchors are non-MULTILINE). -/
def noise_line_patterns : List RE :=
  [seqL [.bos, starE (chrE '#'), starE wsE, istrE "Skip to", .wordB],
   seqL [.bos, starE (chrE '#'), starE wsE, istrE "Keyboard shortcut",
         optE (ichrE 's'), .wordB],
   seqL [.bos, starE wsE, istrE "To move between items", .wordB],
   seqL [.bos, starE wsE,
         istrE "Select the department you want to search in", .wordB],
   seqL [.bos, starE wsE, istrE "Search Amazon", chrE '.', istrE "in",
         starE wsE, .eosNl],
   seqL [.bos, starE wsE,
         altL [.seq (istrE "Need help") (optE (chrE '?')),
               .seq (istrE "More result") (optE (ichrE 's')),
               istrE "Show more",
               .seq (istrE "See all result") (optE (ichrE 's'))],
         starE wsE, .eosNl],
   seqL [.bos, starE wsE, optE (chrE '-'), plusE digitE, plusE wsE,
         istrE "of", plusE wsE, plusE digitE, plusE wsE, istrE "result",
         optE (ichrE 's'), plusE wsE, istrE "for", plusE wsE, starE dotE,
         .eosNl],
   seqL [.bos, starE wsE, strE "¬©", starE wsE, strE "1996-",
         .rep digitE 4 (some 4), chrE ',', starE wsE, istrE "Amazon",
         chrE '.', istrE "com", starE dotAllE, .eosNl]]

/-- `cleaned_markdown` (lines 209–232): drop noise lines, rstrip each kept
line, rejoin with newlines, collapse `\n{3,}` to `\n\n`, strip. -/
def collapseNl3 (s : List Char) : List Char :=
  go 0 s
where
  go : Nat → List Char → List Char
    | n, [] => List.replicate (min n 2) '\n'
    | n, c :: cs =>
      if c = '\n' then go (n + 1) cs
      else List.replicate (min n 2) '\n' ++ c :: go 0 cs

def joinNl (lines : List (List Char)) : List Char :=
  match lines with
  | [] => []
  | l :: ls => l ++ ls.foldr (fun x acc => '\n' :: x ++ acc) []

def cleaned_markdown (markdown : String) : String :=
  let kept := (pySplitlines markdown.data).filter
    (fun l => !(noise_line_patterns.any (fun re => reSearch re l)))
  ⟨pyStripL (collapseNl3 (joinNl (kept.map pyRstripL)))⟩

/-- The block-splitting delimiter of `split_markdown_to_product_blocks`
(line 558, `re.MULTILINE`):
`(?:\n\s*\n+|^#+\s|\n#+\s|^---+|^\*\*\*+)`. -/
def splitDelimRE : RE :=
  altL [seqL [chrE '\n', starE wsE, plusE (chrE '\n')],
        seqL [.bolM, plusE (chrE '#'), wsE],
        seqL [chrE '\n', plusE (chrE '#'), wsE],
        seqL [.bolM, chrE '-', chrE '-', plusE (chrE '-')],
        seqL [.bolM, chrE '*', chrE '*', plusE (chrE '*')]]

/-- The 36 `noise_patterns` of `split_markdown_to_product_blocks`
(lines 561–574), searched with `re.IGNORECASE` (anchors non-MULTILINE). -/
def split_noise_patterns : List RE :=
  [istrE "skip to", istrE "keyboard shortcuts", istrE "your lists",
   istrE "your account",
   seqL [istrE "select", starE dotE, istrE "department"],
   istrE "all categories", istrE "sort by", istrE "filter",
   seqL [istrE "result", optE (ichrE 's'), istrE " for"],
   istrE "advertisement", istrE "cookies", istrE "privacy policy",
   istrE "terms of service", istrE "copyright",
   seqL [strE "¬©", starE dotE, .rep digitE 4 (some 4)],
   istrE "update location", istrE "delivering to", istrE "change address",
   seqL [.bos, plusE digitE, starE wsE, istrE "of", starE wsE, plusE digitE,
         starE wsE, istrE "result", optE (ichrE 's')],
   seqL [.bos, optE (chrE '-'), plusE digitE, starE wsE, istrE "of",
         starE wsE, plusE digitE, starE wsE, istrE "result", optE (ichrE 's')],
   seqL [.bos, istrE "more result", optE (ichrE 's'), .eosNl],
   seqL [.bos, istrE "need help", optE (chrE '?'), .eosNl],
   seqL [.bos, istrE "customer review", optE (ichrE 's'), .eosNl],
   seqL [.bos, istrE "show more", .eosNl],
   seqL [.bos, istrE "see all", .eosNl],
   seqL [.bos, istrE "view all", .eosNl],
   seqL [.bos, istrE "page ", plusE digitE],
   seqL [.bos, plusE digitE, starE wsE, chrE '-', starE wsE, plusE digitE,
         starE wsE, istrE "of", starE wsE, plusE digitE],
   seqL [.bos, istrE "home", starE wsE, strE "‚Ä∫"],
   .seq .bos (strE "‚Ä∫"),
   istrE "breadcrumb",
   seqL [.bos, istrE "sign in", .eosNl],
   seqL [.bos, istrE "cart", .eosNl],
   seqL [.bos, istrE "checkout", .eosNl],
   seqL [.bos, istrE "let us know", .eosNl],
   seqL [.bos, istrE "sponsored", starE wsE, istrE "sponsored", .eosNl]]

/-- Product-vocabulary pattern of `split_markdown_to_product_blocks`
(line 587, `re.IGNORECASE`, searched on the raw block):
`\b(?:buy|price|offer|discount|sale|deal|product|item|model|brand|available|stock|delivery|shipping|stars?|ratings?|reviews?)\b` -/
def splitWordsRE : RE :=
  seqL [.wordB,
        altL [istrE "buy", istrE "price", istrE "offer", istrE "discount",
              istrE "sale", istrE "deal", istrE "product", istrE "item",
              istrE "model", istrE "brand", istrE "available", istrE "stock",
              istrE "delivery", istrE "shipping",
              .seq (istrE "star") (optE (ichrE 's')),
              .seq (istrE "rating") (optE (ichrE 's')),
              .seq (istrE "review") (optE (ichrE 's'))],
        .wordB]

/-- The per-span decision of the loop body of
`split_markdown_to_product_blocks` (lines 576–594): strip, discard when
shorter than 80 characters or noise-matching, keep on the price/length/
vocabulary/keyword condition or on the product-shape test. -/
def keep_block (query_keywords : List String) (b0 : List Char) :
    Option String :=
  let b := pyStripL b0
  if b.length < 80 then none
  else if split_noise_patterns.any (fun re => reSearch re b) then none
  else
    let has_price := block_has_price ⟨b⟩
    let has_product_words := reSearch splitWordsRE b
    let has_query_keyword := !query_keywords.isEmpty &&
      query_keywords.any (fun kw => strContains (lowerStr b) kw.data)
    let has_product_shape := looks_like_product_block ⟨b⟩ query_keywords
    if has_price && (decide (180 ≤ b.length) || has_product_words ||
        has_query_keyword) then some ⟨b⟩
    else if has_product_shape then some ⟨b⟩
    else none

/-- `split_markdown_to_product_blocks` (lines 554–598). -/
def split_markdown_to_product_blocks (markdown : String)
    (query_keywords : List String) : List String :=
  (reSplit splitDelimRE markdown.data).filterMap (keep_block query_keywords)

/-! ## Deterministic field extractor (`extract_product_from_block`) -/

/-- A structured extraction candidate / product.  The source builds a dict
with further independently-extracted optional sub-fields (rating, discount,
offers, link, image, availability); none of the claims, filters, gates or
deduplication keys of the pipeline read them, so the model carries the two
fields every claim depends on.  `price` is `none` for model-path candidates
whose price could not be coerced; the deterministic extractor always sets it. -/
structure Candidate where
  title : String
  price : Option Int
deriving DecidableEq

/-- The nine `skip_patterns` (lines 630–640), searched with
`re.IGNORECASE | re.DOTALL` (so `.` crosses newlines, `^` is start of
string). -/
def skip_patterns : List RE :=
  [istrE "Select the department",
   seqL [istrE "Skip to", starE dotAllE, istrE "content"],
   seqL [istrE "Your Lists", starE dotAllE, istrE "Your Account"],
   istrE "Sort by:",
   seqL [istrE "Results for", starE dotAllE, istrE "in"],
   seqL [istrE "Sponsored", starE dotAllE, istrE "Let us know"],
   seqL [istrE "Price range", starE dotAllE, istrE "Go"],
   seqL [.bos, istrE "All", plusE wsE, istrE "Categories"],
   istrE "Update location"]

/-- The five `price_patterns` (lines 647–653) as one-group patterns,
`re.IGNORECASE`.  Note that in the mojibake-damaged source `[‚Çπ$]` is a
character class over the four individual characters `‚`, `Ç`, `π`, `$`. -/
def price_patterns : List CPat :=
  [⟨.seq (istrE "‚Çπ") (starE wsE), digitsCommaE, .eps⟩,
   ⟨seqL [istrE "Rs", optE (chrE '.'), starE wsE], digitsCommaE, .eps⟩,
   ⟨.seq (istrE "INR") (starE wsE), digitsCommaE, .eps⟩,
   ⟨.seq (chrE '$') (starE wsE), digitsCommaE, .eps⟩,
   ⟨seqL [istrE "Price", optE (chrE ':'), starE wsE, csetE "‚Çπ$",
          starE wsE], digitsCommaE, .eps⟩]

/-- Digit-list to `Nat` (`int(match.replace(',', ''))` after comma removal;
`none` when no digit remains, where Python raises `ValueError` and the loop
`continue`s). -/
def matchVal (m : List Char) : Option Nat :=
  let ds := m.filter isAsciiDigit
  if ds.isEmpty then none
  else some (ds.foldl (fun a c => 10 * a + (c.toNat - '0'.toNat)) 0)

/-- The price-collection loop (lines 655–664): all `findall` matches of all
five patterns, comma-stripped, keeping only values strictly greater than 10
(`if price_val > 10`). -/
def collect_prices (block : List Char) : List Nat :=
  (price_patterns.flatMap (fun p => reFindall p block)).filterMap
    (fun m => match matchVal m with
      | some v => if 10 < v then some v else none
      | none => none)

/-- Line 670: `main_price = max(p for p in prices if 10 <= p <= 10000000)`.
When no collected price lies in the range, Python's `max` raises
`ValueError` on the empty generator. -/
def main_price_of (prices : List Nat) : Except String Nat :=
  match prices.filter (fun p => 10 ≤ p && p ≤ 10000000) with
  | [] => .error "ValueError: max() arg is an empty sequence"
  | x :: xs => .ok (xs.foldl max x)

/-- The fourteen `title_patterns` (lines 673–701) as one-group patterns,
`re.MULTILINE | re.IGNORECASE` (so `[A-Z]` matches any ASCII letter). -/
def title_patterns : List CPat :=
  [⟨seqL [strE "##", starE wsE, chrE '['], .rep (ncsetE "]") 15 (some 120),
    chrE ']'⟩,
   ⟨.seq (strE "##") (plusE wsE), .rep (ncsetE "\n") 15 (some 120), .eps⟩,
   ⟨.seq (strE "###") (starE wsE), .rep (ncsetE "\n") 15 (some 120), .eps⟩,
   ⟨strE "**", .rep (ncsetE "*\n") 15 (some 120), strE "**"⟩,
   ⟨strE "__", .rep (ncsetE "_\n") 15 (some 120), strE "__"⟩,
   ⟨seqL [.bolM, plusE digitE, chrE '.', plusE wsE],
    .rep (ncsetE "\n") 15 (some 120), .eps⟩,
   ⟨seqL [.bolM, chrE '*', plusE wsE], .rep (ncsetE "\n") 15 (some 120), .eps⟩,
   ⟨seqL [.bolM, chrE '-', plusE wsE], .rep (ncsetE "\n") 15 (some 120), .eps⟩,
   ⟨.bolM, .seq letterE (.rep (ncsetE "\n‚Çπ[]") 15 (some 120)),
    .look (.seq (starE dotE) (strE "‚Çπ"))⟩,
   ⟨.eps, .seq letterE (.rep (ncsetE "\n‚Çπ[]") 15 (some 120)),
    .seq (starE wsE) (strE "‚Çπ")⟩,
   ⟨chrE '[', .rep (ncsetE "]") 25 (some 120),
    seqL [chrE ']', chrE '(', strE "http", optE (chrE 's'), strE "://",
          plusE (ncsetE ")"), chrE ')']⟩,
   ⟨.eps, .seq letterE (.rep (ncsetE "‚Çπ\n[]") 25 (some 120)),
    seqL [starE wsE, csetE "‚Çπ$", starE wsE, digitsCommaE]⟩,
   ⟨seqL [csetE "‚Çπ$", starE wsE, digitsCommaE, starE wsE],
    .seq letterE (.rep (ncsetE "‚Çπ\n[]") 25 (some 120)), .eps⟩,
   ⟨.eps,
    seqL [letterE, .rep (ncsetE ".\n") 25 (some 120),
          altL [istrE "with", istrE "featuring", istrE "equipped",
                istrE "includes"],
          .rep (ncsetE ".\n") 5 (some 50)],
    .eps⟩]

/-- `re.sub(r'^\W+|\W+$', '', candidate)` (line 712): drop the leading and
the trailing run of non-word characters.  (The title candidates reaching this
point have already been `strip()`ed, so the `$`-before-final-newline corner
of the Python pattern cannot trigger.) -/
def stripNonWordEnds (s : List Char) : List Char :=
  ((s.dropWhile (fun c => !isWordChar c)).reverse.dropWhile
    (fun c => !isWordChar c)).reverse

/-- `re.sub(r'\s+', ' ', candidate)` (line 713). -/
def collapseWS : List Char → List Char
  | [] => []
  | c :: cs =>
    if isPySpace c then
      match collapseWS cs with
      | [] => [' ']
      | d :: ds => if d = ' ' then ' ' :: ds else ' ' :: d :: ds
  else c :: collapseWS cs

/-- `re.sub(r'\([^)]*\)', '', candidate)` (line 714): remove every
parenthesised span (leftmost, non-overlapping; an opening parenthesis with
no closing one is kept verbatim). -/
def removeParens : Nat → List Char → List Char
  | 0, s => s
  | _ + 1, [] => []
  | n + 1, c :: cs =>
    if c = '(' then
      match cs.findIdx? (· = ')') with
      | some i => removeParens n (cs.drop (i + 1))
      | none => c :: cs
    else c :: removeParens n cs

/-- The 27 `product_indicators` (lines 740–745). -/
def product_indicators : List String :=
  ["pro", "plus", "max", "mini", "air", "ultra", "premium", "standard",
   "gb", "tb", "inch", "core", "gen", "edition", "model", "series",
   "laptop", "phone", "tablet", "watch", "speaker", "camera",
   "wireless", "bluetooth", "smart", "digital", "portable"]

/-- The 15 `bad_indicators` (lines 750–754). -/
def bad_indicators : List String :=
  ["select", "department", "category", "filter", "sort", "results",
   "your lists", "account", "cart", "checkout", "sign in", "skip",
   "more", "need help", "customer review"]

/-- The per-candidate cleanup and score of the title loop (lines 706–765). -/
def title_score (candidate : List Char) (keywords : List String) :
    Option (List Char × Int) :=
  let c1 := stripNonWordEnds (pyStripL candidate)
  let c2 := collapseWS c1
  let c3 := removeParens (c2.length + 1) c2
  if c3.length < 25 then none
  else
    let words := (pySplitWS c3).filter (fun w => 1 < w.length)
    if words.length < 3 then none
    else
      let lowerCand := lowerStr c3
      let lengthBonus : Int := if 25 ≤ c3.length && c3.length ≤ 100 then 3 else 0
      let kwBonus : Int :=
        if keywords.isEmpty then 1
        else 3 * ((keywords.filter
          (fun kw => strContains lowerCand (lowerStr kw.data))).length : Int)
      let indBonus : Int :=
        ((product_indicators.filter
          (fun w => strContains lowerCand w.data)).length : Int)
      let badPenalty : Int :=
        3 * ((bad_indicators.filter
          (fun w => strContains lowerCand w.data)).length : Int)
      let shortPenalty : Int := if words.length < 5 then 1 else 0
      some (c3, lengthBonus + kwBonus + indBonus - badPenalty - shortPenalty)

/-- The title-selection loop (lines 703–765): patterns in order, `findall`
matches in order, tracking the best score; a candidate is adopted only when
its score strictly exceeds both the best so far and the threshold 2; the
adopted title is truncated to 100 characters. -/
def best_title (block : List Char) (keywords : List String) :
    Option (List Char) :=
  let step := fun (st : Option (List Char) × Int) (m : List Char) =>
    match title_score m keywords with
    | none => st
    | some (cand, score) =>
      if score > st.2 && score > 2 then (some (cand.take 100), score) else st
  ((title_patterns.flatMap (fun p => reFindall p block)).foldl
    step (none, 0)).1

/-- `extract_product_from_block` (lines 624–782).  `Except.error` models the
`ValueError` that `max` raises on line 670 when every collected price exceeds
10,000,000.  Returns `Except.ok none` where Python returns `None`. -/
def extract_product_from_block (block : String) (keywords : List String) :
    Except String (Option Candidate) :=
  let bl := block.data
  if skip_patterns.any (fun re => reSearch re bl) then .ok none
  else
    let prices := collect_prices bl
    if prices.isEmpty then .ok none
    else
      match main_price_of prices with
      | .error e => .error e
      | .ok mp =>
        match best_title bl keywords with
        | none => .ok none
        | some t => .ok (some { title := ⟨t⟩, price := some (mp : Int) })

/-! ## Regex-path markdown extraction with deduplication -/

/-- The blank-line splitter of `extract_products_from_markdown` (line 604):
`re.split(r'\n\s*\n+', markdown)`. -/
def blankSplitRE : RE :=
  seqL [chrE '\n', starE wsE, plusE (chrE '\n')]

/-- The deduplication loop of `extract_products_from_markdown`
(lines 614–621): key = exact `(title, price)` pair, first occurrence kept,
order preserved (`seen` models the Python set of keys). -/
def dedup_products (products : List Candidate) : List Candidate :=
  go products [] []
where
  go : List Candidate → List (String × Option Int) → List Candidate →
      List Candidate
    | [], _, acc => acc.reverse
    | p :: ps, seen, acc =>
      if seen.contains (p.title, p.price) then go ps seen acc
      else go ps ((p.title, p.price) :: seen) (p :: acc)

/-- One iteration of the block loop of `extract_products_from_markdown`
(lines 606–612): skip blocks shorter than 50 characters or not containing
the (mojibake) rupee sequence, extract, keep when the price passes the bound
check.  An exception from `extract_product_from_block` propagates. -/
def md_step (keywords : List String) (min_price max_price : Int)
    (acc : List Candidate) (b : List Char) : Except String (List Candidate) :=
  if b.length < 50 || !strContains b "‚Çπ".data then .ok acc
  else
    match extract_product_from_block ⟨b⟩ keywords with
    | .error e => .error e
    | .ok none => .ok acc
    | .ok (some p) =>
      if min_price ≤ p.price.getD 0 && p.price.getD 0 ≤ max_price then
        .ok (acc ++ [p])
      else .ok acc

/-- The block loop of `extract_products_from_markdown` (lines 604–612). -/
def markdown_candidates (markdown : String) (keywords : List String)
    (min_price max_price : Int) : Except String (List Candidate) :=
  (reSplit blankSplitRE markdown.data).foldlM
    (md_step keywords min_price max_price) []

/-- `extract_products_from_markdown` (lines 600–622) with its default price
bounds `min_price = 0`, `max_price = 99999`. -/
def extract_products_from_markdown (markdown : String)
    (keywords : List String) (min_price : Int := 0)
    (max_price : Int := 99999) : Except String (List Candidate) :=
  match markdown_candidates markdown keywords min_price max_price with
  | .error e => .error e
  | .ok ps => .ok (dedup_products ps)

/-! ## Orchestrator (`extract_detailed_product_info`) -/

/-- The result-gathering loop of `extract_detailed_product_info`
(lines 79–85): exceptions from individual chunks are skipped, successful
chunk lists are concatenated in order. -/
def llm_union (chunk_results : List (Except String (List Candidate))) :
    List Candidate :=
  chunk_results.foldl
    (fun acc r => match r with
      | .error _ => acc
      | .ok l => acc ++ l)
    []

/-- `extract_detailed_product_info` (lines 60–100).  The outcome of the
`asyncio.gather` over the per-chunk `extract_with_llm` tasks — the only
external-service interaction — is abstracted as one `Except` value per
chunk.  When the gathered results contribute at least one product they are
returned as-is; otherwise (every chunk failed, or all succeeded with zero
products, or the attempt itself raised) the deterministic regex extractor
runs over the joined blocks with its built-in default bounds (0, 99999); an
exception raised there occurs outside the `try` block and propagates. -/
def extract_detailed_product_info
    (chunk_results : List (Except String (List Candidate)))
    (blocks : List String) (keywords : List String) :
    Except String (List Candidate) :=
  let all_llm := llm_union chunk_results
  if all_llm.isEmpty then
    extract_products_from_markdown (String.intercalate "\n\n" blocks)
      keywords 0 99999
  else .ok all_llm

/-! ## Model-path price coercion (`extract_with_llm`, lines 136–148) -/

/-- A parsed JSON `price` field: a number, a string, or anything else
(`null`, objects, …). -/
inductive PriceJson where
  | num : Int → PriceJson
  | str : String → PriceJson
  | other : PriceJson
deriving DecidableEq

/-- The price-coercion loop of `extract_with_llm` (lines 136–148).  The
source's raw string `r'[^\\d]'` denotes the regex character class
`[^\\d]` — every character that is **not** a backslash and not the letter
`d` — so `re.sub` keeps only backslashes and `d` characters before
`int(...)` is attempted.  (A numeric JSON price is kept via `int(price)`;
the JSON prices in scope are integers, so truncation is the identity.) -/
def coerce_price : PriceJson → Option Int
  | .num i => some i
  | .str s => pyIntParse (s.data.filter (fun c => c = '\\' || c = 'd'))
  | .other => none

/-! ## Post-filter and caller-side gates -/

/-- The 16 `invalid_title_patterns` of `filter_valid_products`
(lines 923–940), searched with `re.IGNORECASE` (anchors non-MULTILINE). -/
def invalid_title_patterns : List RE :=
  [seqL [.bos, istrE "skip", plusE wsE, istrE "to"],
   seqL [.bos, istrE "more", plusE wsE, istrE "result", optE (ichrE 's'),
         .eosNl],
   seqL [.bos, istrE "need", plusE wsE, istrE "help", optE (chrE '?'),
         .eosNl],
   seqL [.bos, plusE digitE, starE wsE, istrE "of", starE wsE, plusE digitE,
         starE wsE, istrE "result", optE (ichrE 's')],
   seqL [.bos, optE (chrE '-'), plusE digitE, starE wsE, istrE "of",
         starE wsE, plusE digitE, starE wsE, istrE "result", optE (ichrE 's')],
   seqL [.bos, istrE "customer", plusE wsE, istrE "review", optE (ichrE 's'),
         .eosNl],
   seqL [.bos, istrE "show", plusE wsE, istrE "more", .eosNl],
   seqL [.bos, istrE "see", plusE wsE, istrE "all", .eosNl],
   seqL [.bos, istrE "view", plusE wsE, istrE "all", .eosNl],
   seqL [.bos, istrE "page", plusE wsE, plusE digitE],
   seqL [.bos, istrE "sign", plusE wsE, istrE "in", .eosNl],
   seqL [.bos, istrE "cart", .eosNl],
   seqL [.bos, istrE "checkout", .eosNl],
   seqL [.bos, istrE "home", starE wsE, strE "‚Ä∫"],
   .seq .bos (strE "‚Ä∫"),
   seqL [.bos, chrE '[', starE dotE, strE "‚Ä∫", starE dotE, strE "‚Ä∫",
         starE dotE, chrE ']']]

/-- The 46 `product_type_words` of `filter_valid_products`
(lines 968–976). -/
def product_type_words : List String :=
  ["laptop", "phone", "tablet", "watch", "camera", "speaker", "headphone",
   "machine", "cleaner", "washer", "dryer", "refrigerator", "tv", "monitor",
   "mouse", "keyboard", "router", "modem", "charger", "cable", "adapter",
   "bag", "case", "cover", "stand", "holder", "mount", "kit", "set",
   "apple", "samsung", "lg", "dell", "hp", "lenovo", "asus", "sony",
   "pro", "plus", "max", "ultra", "premium", "edition", "series", "model",
   "gb", "tb", "inch", "core", "gen", "5g", "4g", "wireless", "bluetooth"]

/-- The per-product validity check of `filter_valid_products`
(lines 942–986): checks run on the stripped title, but the product is kept
with its original title. -/
def valid_product (p : Candidate) : Bool :=
  let title := pyStripL p.title.data
  if title.length < 25 then false
  else if ((pySplitWS title).filter (fun w => 1 < w.length)).length < 3 then
    false
  else if invalid_title_patterns.any (fun re => reSearch re title) then false
  else
    let priceOK := match p.price with
      | none => true
      | some v => !(v < 50 || v > 10000000)
    if !priceOK then false
    else
      let tl := lowerStr title
      if product_type_words.any (fun w => strContains tl w.data) then true
      else decide (40 ≤ title.length)

/-- `filter_valid_products` (lines 915–989). -/
def filter_valid_products (products : List Candidate) : List Candidate :=
  if products.isEmpty then [] else products.filter valid_product

/-- The pure result-filtering section of `scrape_single_page`
(lines 445–459): keep products with a non-empty title containing some query
keyword and passing the price gate, then post-filter. -/
def scrape_page_products (detailed : List Candidate)
    (keywords : List String) (min_price max_price : Int) : List Candidate :=
  filter_valid_products (detailed.filter fun p =>
    p.title ≠ "" &&
    keywords.any (fun kw => strContains (lowerStr p.title.data) kw.data) &&
    (match p.price with
     | none => decide (min_price ≤ 0)
     | some v => decide (min_price ≤ v) && decide (v ≤ max_price)))

/-- The pure result-filtering section of `url_scraper` (lines 531–538):
non-empty title plus the price gate (no keyword check, no post-filter). -/
def url_scraper_products (detailed : List Candidate)
    (min_price max_price : Int) : List Candidate :=
  detailed.filter fun p =>
    p.title ≠ "" &&
    (match p.price with
     | none => decide (min_price ≤ 0)
     | some v => decide (min_price ≤ v) && decide (v ≤ max_price))

/-! ## Specification-side definitions -/

/-- The price gate of the specification: a null price requires
`min_price ≤ 0`, a numeric price must lie within the query bounds. -/
def price_gate_ok (min_price max_price : Int) (p : Candidate) : Bool :=
  match p.price with
  | none => decide (min_price ≤ 0)
  | some v => decide (min_price ≤ v) && decide (v ≤ max_price)

/-- The deduplication key stated by the specification: normalized lowercase
title with the price. -/
def claim_key (p : Candidate) : String × Option Int :=
  (⟨lowerStr p.title.data⟩, p.price)

/-- The deduplication key actually used by the code: the exact title with
the price. -/
def raw_key (p : Candidate) : String × Option Int :=
  (p.title, p.price)

/-- Deduplication as worded by the specification: scan left to right and
keep a candidate exactly when no already-kept candidate shares its
`(title, price)` key — first seen wins, relative order preserved. -/
def dedup_spec (l : List Candidate) : List Candidate :=
  l.foldl
    (fun acc p =>
      if acc.any (fun q => raw_key q == raw_key p) then acc else acc ++ [p])
    []

/-- The amended keep-condition of the Block Segmenter, as a flat disjunction
over the atoms the code tests on the trimmed span `b`: after the
minimum-length (80) and noise-denylist checks, a span is kept iff it has a
price-like token together with (length ≥ 120, or a product-vocabulary word,
or any query keyword — no keyword-length restriction on this path), or it
has length ≥ 120 together with (a `looks_like_product_block`-vocabulary word
or a query keyword longer than 2) and (a product link, a rating token, or
length ≥ 220). -/
def keep_spec (kws : List String) (b0 : List Char) : Bool :=
  let b := pyStripL b0
  decide (80 ≤ b.length) &&
  !(split_noise_patterns.any (fun re => reSearch re b)) &&
  (block_has_price ⟨b⟩ &&
     (decide (120 ≤ b.length) || reSearch splitWordsRE b ||
      (!kws.isEmpty && kws.any (fun kw => strContains (lowerStr b) kw.data))) ||
   decide (120 ≤ b.length) &&
     (reSearch llpbWordsRE (lowerStr b) ||
      (!kws.isEmpty &&
        kws.any (fun kw => 2 < kw.length && strContains (lowerStr b) kw.data))) &&
     (reSearch productLinkRE b || reSearch ratingWordsRE (lowerStr b) ||
      decide (220 ≤ b.length)))

/-- Correctness of the primary-price selection relative to the collected
price list: on success the primary price is a collected value, is at most
10,000,000, and dominates every collected value in `[10, 10,000,000]`; the
`ValueError` case occurs exactly when no collected value lies in that
range. -/
def main_price_ok (l : List Nat) : Bool :=
  match main_price_of l with
  | .ok m =>
    l.contains m && decide (m ≤ 10000000) &&
      l.all (fun v => !(10 ≤ v && v ≤ 10000000) || decide (v ≤ m))
  | .error _ => (l.filter (fun p => 10 ≤ p && p ≤ 10000000)).isEmpty

/-- A candidate carrying an integer price of at most 99,999. -/
def price_le_bound (p : Candidate) : Bool :=
  match p.price with
  | some v => decide (v ≤ 99999)
  | none => false

/-- Every product of a successful extraction result carries an integer price
of at most 99,999 (an exception trivially satisfies the bound). -/
def price_bound_ok : Except String (List Candidate) → Bool
  | .ok ps => ps.all price_le_bound
  | .error _ => true

/-- Whether a character list contains three consecutive newline characters
(that is, a run of two or more blank lines). -/
def hasTripleNl : List Char → Bool
  | a :: b :: c :: rest =>
    (a = '\n' && b = '\n' && c = '\n') || hasTripleNl (b :: c :: rest)
  | _ => false

/-! ## Concrete inputs for the counterexamples and failing-input theorems -/

/-- An 86-character, denylist-clean, single-span document containing the
price-like token `‚Çπ500` but no product-vocabulary word and no keyword. -/
def c8md : String :=
  "Lorem ipsum dolor sit amet consectetur adipiscing elit sed eiusmod tempor khaki ‚Çπ500"

/-- A block whose only price token is 20,000,000 — collected (it exceeds
10) but outside the plausibility range, so line 670's `max` raises. -/
def c4Block : String :=
  "Gallery edition sculpture crafted in bronze listed at ‚Çπ20,000,000 only today"

/-- A block whose only price token is the boundary value 10. -/
def c5Block : String :=
  "Handcrafted walnut serving board with juice groove listed at ‚Çπ10 even now"

/-- A block (50+ characters, containing the rupee sequence) whose only price
token is 30,000,000, poisoning the deterministic fallback path. -/
def c2Block : String :=
  "Limited bronze statue tagged at ‚Çπ30,000,000 in the west wing hall today"

/-- A well-formed product candidate used to exhibit the absence of
deduplication on the model path. -/
def pSam : Candidate :=
  { title := "Samsung Galaxy Phone Pro Max", price := some 999 }

/-- A candidate used to witness batch isolation. -/
def c7Cand : Candidate :=
  { title := "X", price := some 5 }

/-! ## Recursion-friendly reformulations used by the proofs -/

/-- Structural recursion form of the gathering loop of `llm_union`. -/
def llm_union_rec : List (Except String (List Candidate)) → List Candidate
  | [] => []
  | .error _ :: t => llm_union_rec t
  | .ok xs :: t => xs ++ llm_union_rec t

/-- Structural recursion form of `dedup_products` with an explicit seen-key
list. -/
def dedup_rec : List Candidate → List (String × Option Int) → List Candidate
  | [], _ => []
  | p :: ps, seen =>
    if seen.contains (p.title, p.price) then dedup_rec ps seen
    else p :: dedup_rec ps ((p.title, p.price) :: seen)

/-! ## Shared lemmas -/

theorem mem_filter_valid {p : Candidate} {l : List Candidate}
    (h : p ∈ filter_valid_products l) : p ∈ l := by
  unfold filter_valid_products at h
  split at h
  · cases h
  · exact (List.mem_filter.1 h).1

theorem llm_union_foldl (l : List (Except String (List Candidate)))
    (acc : List Candidate) :
    l.foldl
      (fun acc r => match r with
        | .error _ => acc
        | .ok xs => acc ++ xs) acc = acc ++ llm_union_rec l := by
  induction l generalizing acc with
  | nil => simp [llm_union_rec]
  | cons r t ih =>
    cases r with
    | error e => simpa [llm_union_rec] using ih acc
    | ok xs => simp [llm_union_rec, ih (acc ++ xs)]

theorem llm_union_eq_rec (l : List (Except String (List Candidate))) :
    llm_union l = llm_union_rec l := by
  simpa using llm_union_foldl l []

theorem llm_union_rec_append (l₁ l₂ : List (Except String (List Candidate))) :
    llm_union_rec (l₁ ++ l₂) = llm_union_rec l₁ ++ llm_union_rec l₂ := by
  induction l₁ with
  | nil => simp [llm_union_rec]
  | cons r t ih =>
    cases r with
    | error e => simpa [llm_union_rec] using ih
    | ok xs => simp [llm_union_rec, ih]

/-! ## Claim theorems -/

/-- C1: every product returned by the page-scrape filtering stage (both the
prompt-driven page pipeline and the single-URL pipeline) passes the price
gate — a null price implies `min_price ≤ 0`, a numeric price lies within
`[min_price, max_price]`. -/
theorem price_gate_correct :
    (∀ (detailed : List Candidate) (keywords : List String)
        (min_price max_price : Int),
      (scrape_page_products detailed keywords min_price max_price).all
        (price_gate_ok min_price max_price) = true) ∧
    (∀ (detailed : List Candidate) (min_price max_price : Int),
      (url_scraper_products detailed min_price max_price).all
        (price_gate_ok min_price max_price) = true) := by
  constructor
  · intro detailed keywords min_price max_price
    rw [List.all_eq_true]
    intro p hp
    have hmem := mem_filter_valid hp
    have hq := (List.mem_filter.1 hmem).2
    simp only [Bool.and_eq_true] at hq
    exact hq.2
  · intro detailed min_price max_price
    rw [List.all_eq_true]
    intro p hp
    have hq := (List.mem_filter.1 hp).2
    simp only [Bool.and_eq_true] at hq
    exact hq.2

/-- C2 (amended): whenever the gathered batch results contribute no product
— every batch failed, or the batches succeeded with zero candidates, or the
attempt raised — the orchestrator returns exactly the result of the
deterministic regex extractor over the joined blocks, invoked with its
built-in default bounds (0, 99999); it never re-raises the batch failures,
but an exception raised by the regex extractor itself propagates (see the
counterexample). -/
theorem fallback_executes
    (results : List (Except String (List Candidate)))
    (blocks : List String) (keywords : List String)
    (h : llm_union results = []) :
    extract_detailed_product_info results blocks keywords =
      extract_products_from_markdown (String.intercalate "\n\n" blocks)
        keywords 0 99999 := by
  unfold extract_detailed_product_info
  rw [h]
  rfl

theorem fallback_executes_witness :
    llm_union [Except.error "timeout"] = [] ∧
    extract_detailed_product_info [Except.error "timeout"] ["plain"] [] =
      extract_products_from_markdown (String.intercalate "\n\n" ["plain"])
        [] 0 99999 :=
  ⟨rfl, fallback_executes [Except.error "timeout"] ["plain"] [] rfl⟩

/-- C2 (counterexample): with every batch failing and a block whose only
price token exceeds 10,000,000, the orchestrator raises (the fallback's
`max` on line 670 throws `ValueError`) instead of returning the regex
extractor's product list. -/
theorem fallback_raises_cex :
    extract_detailed_product_info [Except.error "boom"] [c2Block] [] =
      Except.error "ValueError: max() arg is an empty sequence" := by
  rfl

/-- C7: a failing batch contributes zero candidates and leaves every sibling
batch's contribution untouched — inserting a failed batch anywhere among the
gathered results does not change the union — and whenever the union of the
successful batches' candidates is non-empty the orchestrator returns exactly
that union. -/
theorem batch_isolation :
    (∀ (pre post : List (Except String (List Candidate))) (e : String),
      llm_union (pre ++ Except.error e :: post) = llm_union (pre ++ post)) ∧
    (∀ (results : List (Except String (List Candidate)))
        (blocks keywords : List String),
      llm_union results ≠ [] →
      extract_detailed_product_info results blocks keywords =
        Except.ok (llm_union results)) := by
  constructor
  · intro pre post e
    rw [llm_union_eq_rec, llm_union_eq_rec, llm_union_rec_append,
        llm_union_rec_append]
    rfl
  · intro results blocks keywords h
    unfold extract_detailed_product_info
    rw [if_neg]
    simpa [List.isEmpty_iff] using h

theorem le_foldl_max_init (ys : List Nat) (b : Nat) :
    b ≤ ys.foldl max b := by
  induction ys generalizing b with
  | nil => exact Nat.le_refl b
  | cons y ys ih =>
    exact Nat.le_trans (Nat.le_max_left b y) (ih (max b y))

theorem foldl_max_mem (xs : List Nat) (x : Nat) :
    xs.foldl max x ∈ x :: xs := by
  induction xs generalizing x with
  | nil => simp
  | cons y ys ih =>
    have h := ih (max x y)
    rw [List.foldl_cons]
    rcases max_choice x y with hm | hm <;>
      rcases List.mem_cons.1 h with h1 | h1 <;>
        simp [hm] at h1 ⊢ <;> simp [h1]

theorem le_foldl_max (xs : List Nat) (x v : Nat) (hv : v ∈ x :: xs) :
    v ≤ xs.foldl max x := by
  induction xs generalizing x with
  | nil =>
    simp at hv
    simp [hv]
  | cons y ys ih =>
    rw [List.foldl_cons]
    rcases List.mem_cons.1 hv with h1 | h1
    · subst h1
      exact Nat.le_trans (Nat.le_max_left _ _) (le_foldl_max_init _ _)
    · rcases List.mem_cons.1 h1 with h2 | h2
      · subst h2
        exact Nat.le_trans (Nat.le_max_right _ _) (le_foldl_max_init _ _)
      · exact ih (max x y) (List.mem_cons_of_mem _ h2)

theorem mem_pyStripL {c : Char} {l : List Char} (h : c ∈ pyStripL l) :
    c ∈ l := by
  unfold pyStripL at h
  rw [List.mem_reverse] at h
  have h1 := (List.dropWhile_sublist _).mem h
  rw [List.mem_reverse] at h1
  exact (List.dropWhile_sublist _).mem h1

theorem pyIntParse_no_digit {l : List Char}
    (h : ∀ c ∈ l, isAsciiDigit c = false) : pyIntParse l = none := by
  have hmem : ∀ c ∈ pyStripL l, isAsciiDigit c = false :=
    fun c hc => h c (mem_pyStripL hc)
  unfold pyIntParse
  have hval : ∀ ds : List Char, (∀ c ∈ ds, isAsciiDigit c = false) →
      pyIntParse.digitsVal ds = none := by
    intro ds hds
    unfold pyIntParse.digitsVal
    cases ds with
    | nil => simp
    | cons d t =>
      have : isAsciiDigit d = false := hds d (List.mem_cons_self d t)
      simp [List.all_cons, this]
  cases hm : pyStripL l with
  | nil => simp [hval [] (by intro c hc; cases hc)]
  | cons a t =>
    have ha := hmem a (hm ▸ List.mem_cons_self a t)
    have ht : ∀ c ∈ t, isAsciiDigit c = false :=
      fun c hc => hmem c (hm ▸ List.mem_cons_of_mem a hc)
    by_cases h1 : a = '-'
    · subst h1
      simp [hval t ht]
    · by_cases h2 : a = '+'
      · subst h2
        simp [hval t ht]
      · have : pyIntParse.digitsVal (a :: t) = none := by
          apply hval
          intro c hc
          rcases List.mem_cons.1 hc with rfl | hc'
          · exact ha
          · exact ht c hc'
        cases a
        simp_all

/-- C4 (failing-input evaluation): on a block whose only price token is
20,000,000 — collected because it exceeds 10, but outside the plausibility
range — `extract_product_from_block` raises `ValueError` at line 670's
`max` over an empty generator, contradicting the never-raises contract. -/
theorem extractor_raises :
    extract_product_from_block c4Block [] =
      Except.error "ValueError: max() arg is an empty sequence" ∧
    collect_prices c4Block.data = [20000000] :=
  ⟨rfl, rfl⟩

/-- C5 (counterexample): a block whose only price token is the boundary
value 10 yields no candidate at all (the collection filter on line 661 keeps
only values strictly greater than 10), not a candidate with price 10. -/
theorem price_boundary_cex :
    extract_product_from_block c5Block [] = Except.ok none ∧
    collect_prices c5Block.data = [] :=
  ⟨rfl, rfl⟩

/-- C5 (amended): every collected price value is strictly greater than 10
(boundary 10 is discarded at collection), and the primary-price selection is
correct relative to the collected list — on success it returns a collected
value that is at most 10,000,000 and dominates every collected value in
`[10, 10,000,000]` (so it is never below a larger co-occurring in-range
token), and it fails (Python: raises `ValueError`) exactly when no collected
value lies in that range. -/
theorem price_selection :
    (∀ bl : List Char,
      (collect_prices bl).all (fun v => decide (10 < v)) = true) ∧
    (∀ l : List Nat, main_price_ok l = true) := by
  constructor
  · intro bl
    rw [List.all_eq_true]
    intro v hv
    unfold collect_prices at hv
    rcases List.mem_filterMap.1 hv with ⟨m, _, hm⟩
    rcases h : matchVal m with _ | w
    · rw [h] at hm
      cases hm
    · rw [h] at hm
      by_cases hw : 10 < w
      · simp only [if_pos hw] at hm
        cases hm
        exact decide_eq_true hw
      · simp [if_neg hw] at hm
  · intro l
    unfold main_price_ok main_price_of
    cases hf : l.filter (fun p => 10 ≤ p && p ≤ 10000000) with
    | nil => simp [hf]
    | cons x xs =>
      have hmem : xs.foldl max x ∈ x :: xs := foldl_max_mem xs x
      have hmem' : xs.foldl max x ∈ l.filter (fun p => 10 ≤ p && p ≤ 10000000) :=
        hf ▸ hmem
      have hprop := (List.mem_filter.1 hmem').2
      simp only [Bool.and_eq_true, decide_eq_true_eq] at hprop
      have hinl : xs.foldl max x ∈ l := (List.mem_filter.1 hmem').1
      simp only [Bool.and_eq_true]
      refine ⟨⟨?_, ?_⟩, ?_⟩
      · simp [hinl]
      · exact decide_eq_true hprop.2
      · rw [List.all_eq_true]
        intro v hvl
        by_cases hrange : 10 ≤ v ∧ v ≤ 10000000
        · have hvf : v ∈ l.filter (fun p => 10 ≤ p && p ≤ 10000000) :=
            List.mem_filter.2 ⟨hvl, by simp [hrange.1, hrange.2]⟩
          rw [hf] at hvf
          have := le_foldl_max xs x v hvf
          simp [this]
        · simp
          omega

/-- C6 (failing-input evaluation): the string-price branch of the batch
extractor's coercion strips every character except backslashes and the
letter d (the source's `r'[^\\d]'` is the regex class excluding backslash
and `d`, not the non-digit class), so `"Rs. 1,299"` coerces to `null` — in
fact every string price coerces to `null` — while numeric prices are kept. -/
theorem price_coercion_eval :
    coerce_price (PriceJson.str "Rs. 1,299") = none ∧
    (∀ s : String, coerce_price (PriceJson.str s) = none) ∧
    coerce_price (PriceJson.num 1299) = some 1299 := by
  refine ⟨rfl, ?_, rfl⟩
  intro s
  unfold coerce_price
  apply pyIntParse_no_digit
  intro c hc
  have hkeep := (List.mem_filter.1 hc).2
  simp only [Bool.or_eq_true, decide_eq_true_eq] at hkeep
  rcases hkeep with rfl | rfl <;> rfl

theorem hasTripleNl_cons {c : Char} (hc : c ≠ '\n') (r : List Char) :
    hasTripleNl (c :: r) = hasTripleNl r := by
  rcases r with _ | ⟨b, _ | ⟨d, u⟩⟩ <;> simp [hasTripleNl, hc]

theorem hasTripleNl_nl_cons {c : Char} (hc : c ≠ '\n') (r : List Char) :
    hasTripleNl ('\n' :: c :: r) = hasTripleNl r := by
  rcases r with _ | ⟨d, u⟩
  · simp [hasTripleNl]
  · simp only [hasTripleNl, hc, decide_False, Bool.and_false, Bool.false_and,
      Bool.false_or]
    exact hasTripleNl_cons hc _

theorem hasTripleNl_two_nl_cons {c : Char} (hc : c ≠ '\n') (r : List Char) :
    hasTripleNl ('\n' :: '\n' :: c :: r) = hasTripleNl r := by
  simp only [hasTripleNl, hc, decide_False, decide_True, Bool.and_false,
    Bool.true_and, Bool.false_or]
  exact hasTripleNl_nl_cons hc _

theorem hasTripleNl_replicate_prepend {c : Char} (hc : c ≠ '\n') {k : Nat}
    (hk : k ≤ 2) (r : List Char) :
    hasTripleNl (List.replicate k '\n' ++ c :: r) = hasTripleNl r := by
  match k, hk with
  | 0, _ => simpa using hasTripleNl_cons hc r
  | 1, _ => simpa using hasTripleNl_nl_cons hc r
  | 2, _ => simpa using hasTripleNl_two_nl_cons hc r

theorem collapse_go_no_triple (cs : List Char) :
    ∀ n, hasTripleNl (collapseNl3.go n cs) = false := by
  induction cs with
  | nil =>
    intro n
    have h : min n 2 = 0 ∨ min n 2 = 1 ∨ min n 2 = 2 := by omega
    rcases h with h | h | h <;> simp [collapseNl3.go, h, hasTripleNl]
  | cons c cs ih =>
    intro n
    by_cases hc : c = '\n'
    · subst hc
      simpa [collapseNl3.go] using ih (n + 1)
    · rw [show collapseNl3.go n (c :: cs) =
          List.replicate (min n 2) '\n' ++ c :: collapseNl3.go 0 cs by
            simp [collapseNl3.go, hc]]
      rw [hasTripleNl_replicate_prepend hc (by omega)]
      exact ih 0

theorem hasTripleNl_decomp (l : List Char) :
    hasTripleNl l = true ↔
      ∃ u v, l = u ++ '\n' :: '\n' :: '\n' :: v := by
  induction l with
  | nil =>
    simp only [hasTripleNl]
    constructor
    · intro h; cases h
    · rintro ⟨u, v, h⟩
      have := congrArg List.length h
      simp at this
      omega
  | cons a t ih =>
    rcases t with _ | ⟨b, t2⟩
    · simp only [hasTripleNl]
      constructor
      · intro h; cases h
      · rintro ⟨u, v, h⟩
        have := congrArg List.length h
        simp at this
        omega
    rcases t2 with _ | ⟨c, r⟩
    · simp only [hasTripleNl]
      constructor
      · intro h; cases h
      · rintro ⟨u, v, h⟩
        have := congrArg List.length h
        simp at this
        omega
    · constructor
      · intro h
        simp only [hasTripleNl, Bool.or_eq_true, Bool.and_eq_true,
          decide_eq_true_eq] at h
        rcases h with ⟨⟨ha, hb⟩, hcc⟩ | h
        · exact ⟨[], r, by simp [ha, hb, hcc]⟩
        · rcases ih.1 h with ⟨u, v, huv⟩
          exact ⟨a :: u, v, by simp [huv]⟩
      · rintro ⟨u, v, huv⟩
        cases u with
        | nil =>
          simp only [List.nil_append] at huv
          injection huv with h1 h2
          injection h2 with h3 h4
          injection h4 with h5 h6
          simp [hasTripleNl, h1, h3, h5]
        | cons x u' =>
          injection huv with h1 h2
          have : hasTripleNl (b :: c :: r) = true := ih.2 ⟨u', v, h2⟩
          simp [hasTripleNl, this]

theorem hasTripleNl_dropWhile (p : Char → Bool) {l : List Char}
    (h : hasTripleNl l = false) :
    hasTripleNl (l.dropWhile p) = false := by
  by_contra hcon
  rw [Bool.not_eq_false] at hcon
  rcases (hasTripleNl_decomp _).1 hcon with ⟨u, v, huv⟩
  rcases List.dropWhile_suffix (l := l) p with ⟨w, hw⟩
  have : l = (w ++ u) ++ '\n' :: '\n' :: '\n' :: v := by
    rw [← hw, huv, List.append_assoc]
  rw [(hasTripleNl_decomp l).2 ⟨w ++ u, v, this⟩] at h
  cases h

theorem hasTripleNl_reverse {l : List Char}
    (h : hasTripleNl l = false) : hasTripleNl l.reverse = false := by
  by_contra hcon
  rw [Bool.not_eq_false] at hcon
  rcases (hasTripleNl_decomp _).1 hcon with ⟨u, v, huv⟩
  have : l = v.reverse ++ '\n' :: '\n' :: '\n' :: u.reverse := by
    rw [← List.reverse_reverse l, huv]
    simp
  rw [(hasTripleNl_decomp l).2 ⟨v.reverse, u.reverse, this⟩] at h
  cases h

theorem hasTripleNl_pyStripL {l : List Char}
    (h : hasTripleNl l = false) : hasTripleNl (pyStripL l) = false := by
  unfold pyStripL
  exact hasTripleNl_reverse
    (hasTripleNl_dropWhile _
      (hasTripleNl_reverse (hasTripleNl_dropWhile _ h)))

/-- C9 (amended): the noise filter is a pure, total function; its output
never contains three consecutive newline characters — every run of two or
more blank lines is collapsed to exactly one blank line — while a single
blank line between kept lines survives unchanged (so the segmenter can
still split on it). -/
theorem blankline_collapse :
    (∀ md : String, hasTripleNl (cleaned_markdown md).data = false) ∧
    cleaned_markdown "ab\n\ncd" = "ab\n\ncd" := by
  constructor
  · intro md
    exact hasTripleNl_pyStripL (collapse_go_no_triple _ 0)
  · rfl

/-- C9 (counterexample): a run of exactly two blank lines — fewer than
three — between two kept lines is not left unchanged: the code collapses
any run of three or more newline characters, so two blank lines become
one. -/
theorem blankline_cex :
    cleaned_markdown "ab\n\n\ncd" = "ab\n\ncd" ∧
    ("ab\n\n\ncd" : String) ≠ "ab\n\ncd" :=
  ⟨rfl, by decide⟩

theorem dedup_go_eq (l : List Candidate) :
    ∀ seen acc, dedup_products.go l seen acc = acc.reverse ++ dedup_rec l seen := by
  induction l with
  | nil => intro seen acc; simp [dedup_products.go, dedup_rec]
  | cons p ps ih =>
    intro seen acc
    by_cases h : (p.title, p.price) ∈ seen
    · simp [dedup_products.go, dedup_rec, h, ih]
    · simp [dedup_products.go, dedup_rec, h, ih]

theorem dedup_eq_rec (l : List Candidate) :
    dedup_products l = dedup_rec l [] := by
  simpa using dedup_go_eq l [] []

theorem dedup_rec_sublist (l : List Candidate) :
    ∀ seen, (dedup_rec l seen).Sublist l := by
  induction l with
  | nil => intro seen; simp [dedup_rec]
  | cons p ps ih =>
    intro seen
    unfold dedup_rec
    split
    · exact (ih seen).cons p
    · exact (ih _).cons₂ p

theorem dedup_rec_keys (l : List Candidate) :
    ∀ seen : List (String × Option Int),
      ((dedup_rec l seen).map raw_key).Nodup ∧
      ∀ k ∈ seen, ¬ k ∈ (dedup_rec l seen).map raw_key := by
  induction l with
  | nil =>
    intro seen
    exact ⟨List.nodup_nil, fun k _ h => by cases h⟩
  | cons p ps ih =>
    intro seen
    by_cases h : (p.title, p.price) ∈ seen
    · rw [show dedup_rec (p :: ps) seen = dedup_rec ps seen by
        simp [dedup_rec, h]]
      exact ih seen
    · rw [show dedup_rec (p :: ps) seen =
          p :: dedup_rec ps ((p.title, p.price) :: seen) by
        simp [dedup_rec, h]]
      have ihx := ih ((p.title, p.price) :: seen)
      constructor
      · rw [List.map_cons, List.nodup_cons]
        refine ⟨?_, ihx.1⟩
        exact ihx.2 (raw_key p) (by simp [raw_key])
      · intro k hk hmem
        rcases List.mem_cons.1 hmem with hkp | hmem'
        · rw [show raw_key p = (p.title, p.price) from rfl] at hkp
          subst hkp
          exact h hk
        · exact ihx.2 k (List.mem_cons_of_mem _ hk) hmem'

theorem dedup_rec_congr (l : List Candidate) :
    ∀ s1 s2 : List (String × Option Int),
      (∀ k, k ∈ s1 ↔ k ∈ s2) → dedup_rec l s1 = dedup_rec l s2 := by
  induction l with
  | nil => intro s1 s2 _; rfl
  | cons p ps ih =>
    intro s1 s2 hiff
    by_cases h1 : (p.title, p.price) ∈ s1
    · have h2 : (p.title, p.price) ∈ s2 := (hiff _).1 h1
      rw [show dedup_rec (p :: ps) s1 = dedup_rec ps s1 by simp [dedup_rec, h1],
          show dedup_rec (p :: ps) s2 = dedup_rec ps s2 by simp [dedup_rec, h2]]
      exact ih s1 s2 hiff
    · have h2 : (p.title, p.price) ∉ s2 := fun hx => h1 ((hiff _).2 hx)
      rw [show dedup_rec (p :: ps) s1 =
            p :: dedup_rec ps ((p.title, p.price) :: s1) by
          simp [dedup_rec, h1],
          show dedup_rec (p :: ps) s2 =
            p :: dedup_rec ps ((p.title, p.price) :: s2) by
          simp [dedup_rec, h2]]
      rw [ih ((p.title, p.price) :: s1) ((p.title, p.price) :: s2)
        (by intro k; simp [hiff k])]

theorem dedup_spec_foldl (l : List Candidate) :
    ∀ acc : List Candidate,
      l.foldl
        (fun acc p =>
          if acc.any (fun q => raw_key q == raw_key p) then acc
          else acc ++ [p]) acc =
      acc ++ dedup_rec l (acc.map raw_key) := by
  induction l with
  | nil => intro acc; simp [dedup_rec]
  | cons p ps ih =>
    intro acc
    have hany : (acc.any (fun q => raw_key q == raw_key p)) =
        (acc.map raw_key).contains (p.title, p.price) := by
      rw [Bool.eq_iff_iff]
      simp only [List.any_eq_true, beq_iff_eq, List.contains, List.elem_eq_mem,
        decide_eq_true_eq, List.mem_map]
      constructor
      · rintro ⟨q, hq, he⟩
        exact ⟨q, hq, he⟩
      · rintro ⟨q, hq, he⟩
        exact ⟨q, hq, he⟩
    rw [List.foldl_cons, hany]
    by_cases hc : (p.title, p.price) ∈ acc.map raw_key
    · rw [if_pos (by simpa using hc), ih acc,
        show dedup_rec (p :: ps) (acc.map raw_key) =
          dedup_rec ps (acc.map raw_key) by simp [dedup_rec, hc]]
    · rw [if_neg (by simpa using hc), ih (acc ++ [p]),
        show dedup_rec (p :: ps) (acc.map raw_key) =
          p :: dedup_rec ps ((p.title, p.price) :: acc.map raw_key) by
            simp [dedup_rec, hc]]
      rw [List.map_append,
        dedup_rec_congr ps (acc.map raw_key ++ [p].map raw_key)
          ((p.title, p.price) :: acc.map raw_key)
          (by intro k; simp [raw_key, or_comm])]
      simp

/-- C3 (amended): only the deterministic regex extraction path
deduplicates, and it does so by the exact case-sensitive `(title, price)`
key (not the lowercase-normalized key): its deduplication loop coincides
with the first-seen-wins scan described by the spec, produces pairwise
distinct raw keys, and preserves relative order (the output is a sublist of
the input); consequently every successful `extract_products_from_markdown`
result has pairwise distinct raw `(title, price)` keys.  The model path
applies no deduplication at all (see the counterexample). -/
theorem dedup_raw_key :
    (∀ l : List Candidate, dedup_products l = dedup_spec l) ∧
    (∀ l : List Candidate, ((dedup_products l).map raw_key).Nodup) ∧
    (∀ l : List Candidate, (dedup_products l).Sublist l) ∧
    (∀ (md : String) (kws : List String) (mn mx : Int),
      match extract_products_from_markdown md kws mn mx with
      | .ok ps => ((ps.map raw_key)).Nodup
      | .error _ => True) := by
  refine ⟨?_, ?_, ?_, ?_⟩
  · intro l
    rw [dedup_eq_rec]
    unfold dedup_spec
    rw [dedup_spec_foldl l []]
    simp
  · intro l
    rw [dedup_eq_rec]
    exact (dedup_rec_keys l []).1
  · intro l
    rw [dedup_eq_rec]
    exact dedup_rec_sublist l []
  · intro md kws mn mx
    unfold extract_products_from_markdown
    cases hmc : markdown_candidates md kws mn mx with
    | error e => simp [hmc]
    | ok ps =>
      simp only [hmc]
      rw [dedup_eq_rec]
      exact (dedup_rec_keys ps []).1

/-- C3 (counterexample): the claimed property fails for the sequence
returned to the caller — two identical valid candidates produced by the
model path both survive `scrape_single_page`'s filtering (which never
deduplicates), so the returned products do not have pairwise distinct
(normalized lowercase title, price) keys. -/
theorem dedup_key_cex :
    ¬ (((scrape_page_products [pSam, pSam] ["samsung"] 0 2000).map
        claim_key).Nodup) := by
  decide

theorem extract_price_shape {b : String} {kws : List String} {c : Candidate}
    (h : extract_product_from_block b kws = .ok (some c)) :
    ∃ v : Int, c.price = some v := by
  unfold extract_product_from_block at h
  dsimp only at h
  split at h
  · simp at h
  · split at h
    · simp at h
    · split at h
      · simp at h
      · split at h
        · simp at h
        · simp only [Except.ok.injEq, Option.some.injEq] at h
          subst h
          exact ⟨_, rfl⟩

theorem fold_bound (kws : List String) (bs : List (List Char)) :
    ∀ acc ps, (∀ p ∈ acc, price_le_bound p = true) →
      bs.foldlM (md_step kws 0 99999) acc = .ok ps →
      ∀ p ∈ ps, price_le_bound p = true := by
  induction bs with
  | nil =>
    intro acc ps hinv hfold p hp
    simp only [List.foldlM_nil] at hfold
    cases hfold
    exact hinv p hp
  | cons b bs ih =>
    intro acc ps hinv hfold p hp
    rw [List.foldlM_cons] at hfold
    cases hstep : md_step kws 0 99999 acc b with
    | error e =>
      rw [hstep] at hfold
      cases hfold
    | ok acc' =>
      rw [hstep] at hfold
      have hfold' : bs.foldlM (md_step kws 0 99999) acc' = .ok ps := hfold
      refine ih acc' ps ?_ hfold' p hp
      intro q hq
      unfold md_step at hstep
      split at hstep
      · cases hstep
        exact hinv q hq
      · cases hex : extract_product_from_block ⟨b⟩ kws with
        | error e =>
          rw [hex] at hstep
          cases hstep
        | ok r =>
          rw [hex] at hstep
          cases r with
          | none =>
            cases hstep
            exact hinv q hq
          | some pc =>
            dsimp only at hstep
            split at hstep
            · cases hstep
              rcases List.mem_append.1 hq with hq1 | hq2
              · exact hinv q hq1
              · rcases List.mem_singleton.1 hq2 with rfl
                rcases extract_price_shape hex with ⟨v, hv⟩
                rename_i hgate
                simp only [Bool.and_eq_true, decide_eq_true_eq] at hgate
                unfold price_le_bound
                rw [hv]
                rw [hv] at hgate
                simpa using hgate.2
            · cases hstep
              exact hinv q hq

/-- C10: whenever the orchestrator falls back to deterministic regex
extraction (the gathered batch results contribute nothing), it invokes the
regex extractor with its built-in default bounds (`min_price = 0`,
`max_price = 99999`) rather than the caller's query bounds, so every
candidate of a successful fallback result carries an integer price of at
most 99,999 — products priced above 99,999 are unreachable via the
fallback path. -/
theorem fallback_price_bound
    (results : List (Except String (List Candidate)))
    (blocks keywords : List String) (h : llm_union results = []) :
    price_bound_ok (extract_detailed_product_info results blocks keywords) =
      true := by
  unfold extract_detailed_product_info
  rw [h]
  simp only [List.isEmpty_nil, if_true]
  unfold extract_products_from_markdown
  cases hmc : markdown_candidates
      (String.intercalate "\n\n" blocks) keywords 0 99999 with
  | error e => simp [hmc, price_bound_ok]
  | ok ps =>
    simp only [hmc, price_bound_ok]
    rw [List.all_eq_true]
    intro p hp
    have hp' : p ∈ ps := (dedup_eq_rec ps ▸ dedup_rec_sublist ps []).mem hp
    exact fold_bound keywords _ [] ps (by intro q hq; cases hq) hmc p hp'

theorem fallback_price_bound_witness :
    llm_union [] = [] ∧
    price_bound_ok (extract_detailed_product_info [] [] []) = true :=
  ⟨rfl, fallback_price_bound [] [] [] rfl⟩

theorem dropWhile_head_false :
    ∀ (l : List Char) (c : Char) (t : List Char),
      l.dropWhile isPySpace = c :: t → isPySpace c = false := by
  intro l
  induction l with
  | nil => intro c t h; cases h
  | cons a l ih =>
    intro c t h
    rw [List.dropWhile_cons] at h
    split at h
    · exact ih c t h
    · injection h with h1 _
      subst h1
      rename_i hna _
      simpa using hna

theorem pyStripL_eq_rdrop (l : List Char) :
    pyStripL l = List.rdropWhile isPySpace (l.dropWhile isPySpace) := rfl

theorem pyStripL_idem (l : List Char) :
    pyStripL (pyStripL l) = pyStripL l := by
  rw [pyStripL_eq_rdrop, pyStripL_eq_rdrop]
  have h1 : (List.rdropWhile isPySpace
      (l.dropWhile isPySpace)).dropWhile isPySpace =
      List.rdropWhile isPySpace (l.dropWhile isPySpace) := by
    rcases hr : List.rdropWhile isPySpace (l.dropWhile isPySpace) with _ | ⟨c, t⟩
    · rfl
    · obtain ⟨u, hu⟩ := List.rdropWhile_prefix isPySpace (l.dropWhile isPySpace)
      rw [hr] at hu
      have hdw : l.dropWhile isPySpace = c :: (t ++ u) := by
        rw [← hu]
        simp
      have hc := dropWhile_head_false l c (t ++ u) hdw
      simp [List.dropWhile_cons, hc]
  rw [h1, List.rdropWhile_idempotent]

/-- C8 (amended): on every span produced by the structural split, the
segmenter's keep-decision is exactly: pass the minimum-length (80) and
noise-denylist checks, then either (a) contain a price-like token together
with length ≥ 120, or a segmenter product-vocabulary word, or any query
keyword (with no length restriction on this path); or (b) have length ≥ 120
together with a `looks_like_product_block`-vocabulary word or a query
keyword of length > 2, and a product link, a rating token, or length ≥ 220.
In particular a denylist-clean price-bearing span of length 80–119 with no
vocabulary word and no keyword is dropped, so the claimed unconditional
price-token disjunct does not hold. -/
theorem segmenter_keep_characterization :
    ∀ (kws : List String) (b0 : List Char),
      (keep_block kws b0).isSome = keep_spec kws b0 := by
  intro kws b0
  unfold keep_block keep_spec looks_like_product_block
  dsimp only
  rw [pyStripL_idem]
  generalize block_has_price ⟨pyStripL b0⟩ = hp
  generalize reSearch splitWordsRE (pyStripL b0) = w
  generalize (!kws.isEmpty &&
    kws.any fun kw => strContains (lowerStr (pyStripL b0)) kw.data) = k
  generalize (!kws.isEmpty &&
    kws.any fun kw => 2 < kw.length &&
      strContains (lowerStr (pyStripL b0)) kw.data) = kL
  generalize reSearch llpbWordsRE (lowerStr (pyStripL b0)) = wS
  generalize reSearch productLinkRE (pyStripL b0) = link
  generalize reSearch ratingWordsRE (lowerStr (pyStripL b0)) = rat
  generalize (split_noise_patterns.any fun re =>
    reSearch re (pyStripL b0)) = noi
  generalize hL : (pyStripL b0).length = L
  rcases Nat.lt_or_ge L 80 with h80 | h80
  · have hn80 : ¬ 80 ≤ L := by omega
    simp [h80, hn80]
  · have h80' : ¬ L < 80 := by omega
    cases noi with
    | true => simp [h80']
    | false =>
      rcases Nat.lt_or_ge L 120 with h120 | h120
      · have hn120 : ¬ 120 ≤ L := by omega
        have hn180 : ¬ 180 ≤ L := by omega
        have hn220 : ¬ 220 ≤ L := by omega
        cases hp <;> cases w <;> cases k <;> cases kL <;> cases wS <;>
          cases link <;> cases rat <;>
          simp [h80, h80', h120, hn120, hn180, hn220]
      · rcases Nat.lt_or_ge L 180 with h180 | h180
        · have hn180 : ¬ 180 ≤ L := by omega
          have hn220 : ¬ 220 ≤ L := by omega
          have h120' : ¬ L < 120 := by omega
          cases hp <;> cases w <;> cases k <;> cases kL <;> cases wS <;>
            cases link <;> cases rat <;>
            simp [h80, h80', h120, h120', hn180, hn220]
        · rcases Nat.lt_or_ge L 220 with h220 | h220
          · have hn220 : ¬ 220 ≤ L := by omega
            have h120' : ¬ L < 120 := by omega
            cases hp <;> cases w <;> cases k <;> cases kL <;> cases wS <;>
              cases link <;> cases rat <;>
              simp [h80, h80', h120, h120', h180, hn220]
          · have h120' : ¬ L < 120 := by omega
            cases hp <;> cases w <;> cases k <;> cases kL <;> cases wS <;>
              cases link <;> cases rat <;>
              simp [h80, h80', h120, h120', h180, h220]

/-- C8 (counterexample): an 86-character denylist-clean span containing the
price-like token `‚Çπ500` — passing the minimum-length check — is dropped
by the segmenter, because a price-bearing span of length under 120 is kept
only when a product-vocabulary word or query keyword is also present. -/
theorem segmenter_price_cex :
    split_markdown_to_product_blocks c8md [] = [] ∧
    block_has_price ⟨pyStripL c8md.data⟩ = true ∧
    80 ≤ (pyStripL c8md.data).length ∧
    (split_noise_patterns.any fun re =>
      reSearch re (pyStripL c8md.data)) = false :=
  ⟨rfl, rfl, by decide, rfl⟩

theorem batch_isolation_witness :
    llm_union [Except.ok [c7Cand], Except.error "timeout"] ≠ [] ∧
    extract_detailed_product_info
        [Except.ok [c7Cand], Except.error "timeout"] ["b"] [] =
      Except.ok (llm_union [Except.ok [c7Cand], Except.error "timeout"]) :=
  ⟨by decide,
   batch_isolation.2 [Except.ok [c7Cand], Except.error "timeout"] ["b"] []
     (by decide)⟩

end SmartExtractor
